import Mathlib

/-!
Verification of the sentereige layout engine core against its specification.

The TypeScript source is shallowly embedded: React hooks become pure
functions over explicit state records, DOM measurements become numeric
parameters, and thrown exceptions become `Except` results.  JavaScript
numbers are modelled as `Int` (all quantities of interest are pixel
counts and indices).
-/

namespace Sentereige

/-! ## Child Order Manager (`useChildOrder.ts`)

A React element is relevant to the hook only through its `key`, which may
be `null`/missing (`none`) or a string. -/

/-- A consumer-supplied child element, reduced to the only field the
Child Order Manager inspects: its React `key`. -/
structure RChild where
  key : Option String
deriving Repr, DecidableEq

/-- The state owned by `useChildOrder`: the ordered children and the
derived key list. -/
structure ChildrenOrder where
  orderedChildren : List RChild
  orderedKeys : List String
deriving Repr, DecidableEq

/-- `children.map((c) => c.key).filter((key) => key !== null && key !== undefined)`
(useChildOrder.ts lines 19-21, 49-51, 82-84). -/
def extractKeys (cs : List RChild) : List String :=
  cs.filterMap (·.key)

/-- `updateChildren` from `useChildOrder.ts` lines 67-92.  The initial
`useState` setup (lines 14-27) and the `useEffect` prop-update path
(lines 38-60) perform the identical validation and replacement, so this
single function embeds all three update paths.  The `new Set(keys).size`
of the source is `(extractKeys cs).dedup.length`; a size mismatch throws
(`Except.error`) before any `setState` call, so on error the previous
state `_st` is returned unchanged by the caller (no partial mutation). -/
def updateChildren (newChildren : List RChild) (_st : ChildrenOrder) :
    Except String ChildrenOrder :=
  if newChildren.isEmpty then
    -- `console.warn(...); setOrderedChildren([]); setOrderedKeys([])`
    Except.ok ⟨[], []⟩
  else
    let keys := extractKeys newChildren
    if keys.dedup.length ≠ keys.length then
      Except.error "All children must have unique, non-null keys."
    else
      Except.ok ⟨newChildren, keys⟩

/-- The React-level effect of one update: a thrown error happens before
any `setState` call, so the hook's stored state survives unchanged. -/
def applyUpdate (newChildren : List RChild) (st : ChildrenOrder) : ChildrenOrder :=
  match updateChildren newChildren st with
  | Except.ok st' => st'
  | Except.error _ => st

/-! ## Drag Interaction State Machine (`useDrag`, long-press protocol)

The embedding covers the pre-drag phase of `useDrag`: `handleMouseDown`
(long-press timer setup), the tolerance check at the top of
`handleMouseMove`, the long-press timeout callback, and the click path of
`handleMouseUp`.  Pointer coordinates are integer pixels; the source
compares `Math.sqrt(dx^2+dy^2) > tolerance`, embedded as
`dx^2+dy^2 > tolerance^2` (equivalent for the nonnegative tolerances the
configuration admits).  The clone/reorder logic of an *active* drag
(lines 462-630 of the source) is outside this phase: in every state these
definitions reach before a drag starts, no `.drag-clone` element exists,
so the throttled frame callback exits at `if (!clone || !containerRef)`
and leaves all modelled fields untouched. -/

/-- Static configuration of `useDrag` relevant to the long-press
protocol.  `itemPresent k` models `itemRefs.current[k] !== null`.
The `dragHandleSelector` mismatch branch behaves exactly like
`isSortable = false` (click callback fired immediately, no timer), so a
configured handle selector is subsumed by `isSortable := false`. -/
structure DragEnv where
  isSortable : Bool
  longPressMoveTolerancePx : Int
  itemPresent : String → Bool

/-- The mutable cells of `useDrag` touched by the long-press/click
protocol, plus observation logs for the `onItemClick` callback and the
`START_DRAG` dispatches. -/
structure DragSim where
  timerActive : Bool
  initialPressCoords : Option (Int × Int)
  potentialDragKey : Option String
  initialPressKey : Option String
  draggingId : Option String
  cursorPos : Int × Int
  clicks : List String
  dragStarts : List String
deriving Repr, DecidableEq

/-- The all-null initial state of the hook's refs and reducer. -/
def initDragSim : DragSim :=
  ⟨false, none, none, none, none, (0, 0), [], []⟩

/-- Squared euclidean distance; the source computes
`Math.sqrt(Math.pow(dx,2) + Math.pow(dy,2))`. -/
def sqDist (a b : Int × Int) : Int :=
  (a.1 - b.1) ^ 2 + (a.2 - b.2) ^ 2

/-- `handleMouseDown` (source lines 298-429): record the pressed key,
fire the click callback immediately when not sortable (or when a handle
selector does not match), otherwise reset the long-press refs, record the
press coordinates and candidate key, and start the long-press timer if
the item's DOM ref exists. -/
def handleMouseDown (env : DragEnv) (key : String) (coords : Int × Int)
    (s : DragSim) : DragSim :=
  let s := { s with initialPressKey := some key }
  if ¬ env.isSortable then
    { s with clicks := s.clicks ++ [key] }
  else
    let s := { s with timerActive := false, initialPressCoords := some coords,
                      potentialDragKey := some key }
    if ¬ env.itemPresent key then
      s
    else
      { s with timerActive := true }

/-- `handleMouseMove` (source lines 437-460, the pre-drag part): always
update the cursor position; while the long-press timer is pending and no
drag is active, a move beyond the tolerance cancels the timer and clears
the press coordinates and candidate key.  Otherwise (no pending timer, no
active drag, no clone) the throttled frame callback is a no-op on the
modelled fields. -/
def handleMouseMove (env : DragEnv) (coords : Int × Int) (s : DragSim) : DragSim :=
  let s := { s with cursorPos := coords }
  if s.timerActive ∧ s.draggingId = none then
    match s.initialPressCoords with
    | some c0 =>
        if sqDist coords c0 > env.longPressMoveTolerancePx ^ 2 then
          { s with timerActive := false, initialPressCoords := none,
                   potentialDragKey := none }
        else s
    | none => s
  else s

/-- The `setTimeout` callback of the long-press timer (source lines
339-407).  It runs only if the timer was not cleared; it re-checks the
distance between the current cursor and the initial press, aborts when
moved beyond tolerance or when the item ref disappeared, and otherwise
creates the clone and dispatches `START_DRAG`. -/
def longPressFire (env : DragEnv) (s : DragSim) : DragSim :=
  if ¬ s.timerActive then s
  else
    match s.potentialDragKey, s.initialPressCoords with
    | some key, some c0 =>
        if sqDist s.cursorPos c0 > env.longPressMoveTolerancePx ^ 2 then
          { s with timerActive := false, initialPressCoords := none,
                   potentialDragKey := none }
        else if ¬ env.itemPresent key then
          { s with timerActive := false, initialPressCoords := none,
                   potentialDragKey := none }
        else
          { s with timerActive := false, initialPressCoords := none,
                   potentialDragKey := none, draggingId := some key,
                   dragStarts := s.dragStarts ++ [key] }
    | _, _ => { s with timerActive := false }

/-- `handleMouseUp` (source lines 658-701, the click path): clear the
timer and candidate key; if no drag is active and the press coordinates
are still recorded, invoke the click callback when the release stayed
within tolerance; clear the press refs; `SETTLE_DRAG` clears
`draggingId`. -/
def handleMouseUp (env : DragEnv) (coords : Int × Int) (s : DragSim) : DragSim :=
  let s := { s with timerActive := false, potentialDragKey := none }
  let s :=
    match s.draggingId, s.initialPressCoords, s.initialPressKey with
    | none, some c0, some k =>
        if sqDist coords c0 ≤ env.longPressMoveTolerancePx ^ 2 then
          { s with clicks := s.clicks ++ [k] }
        else s
    | _, _, _ => s
  let s := { s with initialPressCoords := none, initialPressKey := none }
  { s with draggingId := none }

/-- A pointer-interaction event.  `timer` is the long-press timeout
firing; an event list without `timer` between `down` and `move` models a
move that happens before `longPressDelayMs` elapses. -/
inductive DragEvent where
  | down (key : String) (coords : Int × Int)
  | move (coords : Int × Int)
  | timer
  | up (coords : Int × Int)

/-- One step of the drag state machine. -/
def dragStep (env : DragEnv) (s : DragSim) : DragEvent → DragSim
  | DragEvent.down key coords => handleMouseDown env key coords s
  | DragEvent.move coords => handleMouseMove env coords s
  | DragEvent.timer => longPressFire env s
  | DragEvent.up coords => handleMouseUp env coords s

/-- Run the drag state machine from the initial state. -/
def runDrag (env : DragEnv) (events : List DragEvent) : DragSim :=
  events.foldl (dragStep env) initDragSim

/-! ## Sequential Layout Engine (`useSequentialLayout`, useAutoScroll.ts
lines 155-490)

Pixel quantities are `Int`; JavaScript truthiness of a number is `≠ 0`,
of a string is `≠ ""`.  `Array.prototype.findIndex` returns `-1` on a
miss, embedded as `jsFindIndex : ... → Int`. -/

/-- `Array.prototype.findIndex`: index of the first element satisfying
`p`, or `-1`. -/
def jsFindIndex (p : α → Bool) : List α → Int
  | [] => -1
  | x :: xs =>
      if p x then 0
      else if jsFindIndex p xs = -1 then -1 else jsFindIndex p xs + 1

/-- Index of the first occurrence of `a` (the list's length when `a` is
absent): spec-side vocabulary for "toKey's current index". -/
def firstIndex [BEq α] (a : α) : List α → Nat
  | [] => 0
  | x :: xs => if x == a then 0 else firstIndex a xs + 1

/-- Lifecycle stage of an item (`"unknown" | "measured" | "moved" | "placed"`). -/
inductive Stage where
  | unknown
  | measured
  | moved
  | placed
deriving Repr, DecidableEq, BEq

/-- One entry of `itemSizeCache.current.pairs`. -/
structure SizePair where
  key : String
  width : Int
  height : Int
  stage : Stage
deriving Repr, DecidableEq

/-- One entry of `layoutRef.current.positions`.  `width`/`height` are
absent on an `unknown` probe entry. -/
structure ItemPosition where
  stage : Stage
  index : Nat
  left : Int
  top : Int
  width : Option Int := none
  height : Option Int := none
  key : String
deriving Repr, DecidableEq

/-- The configuration and environment of `useSequentialLayout`:
`containerWidth` is `containerRef.current?.offsetWidth ?? containerFallbackWidth`,
read back unchanged during one layout pass. -/
structure LayoutConfig where
  gutter : Int
  containerWidth : Int
  defaultItemWidth : Int := 10
  defaultItemHeight : Int := 300
deriving Repr, DecidableEq

/-- JavaScript `a || d` for an optionally-present number `a` (used for
`itemSizeCache.current.pairs[0]?.width || defaultItemWidth`): `0`,
like `undefined`, falls through to the default. -/
def jsOr (v : Option Int) (d : Int) : Int :=
  match v with
  | some x => if x = 0 then d else x
  | none => d

/-- `Math.min(...colHeights)` for the nonempty column arrays the engine
builds (`cols ≥ 1` always). -/
def listMin : List Int → Int
  | [] => 0
  | x :: xs => xs.foldl min x

/-- Maximum of a column-height array (spec-side measure for the
shortest-column balance property). -/
def listMax : List Int → Int
  | [] => 0
  | x :: xs => xs.foldl max x

/-- `colHeights[colHeights.indexOf(min)] += v` (useAutoScroll.ts lines
241-244): add `v` to the first shortest column. -/
def addToShortest (cols : List Int) (v : Int) : List Int :=
  let m := listMin cols
  cols.set (cols.indexOf m) (m + v)

/-- The accumulation loop of `calcNextItemPosition` (lines 240-245): each
already-placed item adds `(pos.height ?? defaultItemHeight) + gutterX` to
the currently shortest column. -/
def fillColumns (gutterX defaultH : Int) (cols : List Int)
    (heights : List (Option Int)) : List Int :=
  heights.foldl (fun c oh => addToShortest c (oh.getD defaultH + gutterX)) cols

/-- `calcNextItemPosition` (useAutoScroll.ts lines 219-253): shortest-column
placement for the item that will sit at `index` given the already-built
position array.  `Int.fdiv` is JavaScript's `Math.floor` division. -/
def calcNextItemPosition (cfg : LayoutConfig) (pairs : List SizePair)
    (positions : List ItemPosition) (index : Nat) : Int × Int :=
  if positions.isEmpty then (0, 0)
  else
    let gutterX := max 0 cfg.gutter
    let width := jsOr (pairs.head?.map (·.width)) cfg.defaultItemWidth
    let cols := max 1 ((cfg.containerWidth + gutterX).fdiv (width + gutterX))
    let colWidth := width + gutterX
    let colHeights := fillColumns gutterX cfg.defaultItemHeight
      (List.replicate cols.toNat 0) ((positions.take index).map (·.height))
    let m := listMin colHeights
    ((colHeights.indexOf m : Int) * colWidth, m)

/-- `itemSizeCache.current.pairs.find((d) => d.key == key)`. -/
def sizeLookup (pairs : List SizePair) (key : String) : Option SizePair :=
  pairs.find? (fun d => d.key == key)

/-- The destructured-and-tested lookup of `computeLayout` (lines 267-270):
`const {width, height, stage} = pairs.find(...) ?? {}` followed by
`if (width && height && stage)`.  Returns the entry only when both
dimensions are truthy (nonzero); the stage string is always truthy. -/
def sizedLookup (pairs : List SizePair) (key : String) : Option SizePair :=
  match sizeLookup pairs key with
  | some e => if e.width ≠ 0 ∧ e.height ≠ 0 then some e else none
  | none => none

/-- One iteration of the `keysRef.current.forEach` body of `computeLayout`
(lines 265-308), threading the in-construction position array and the
`unknownRendered` flag. -/
def computeLayoutStep (cfg : LayoutConfig) (pairs : List SizePair)
    (lastMeasuredKey : String) (s : List ItemPosition × Bool) (key : String) :
    List ItemPosition × Bool :=
  match sizedLookup pairs key with
  | some e =>
      let lt := calcNextItemPosition cfg pairs s.1 s.1.length
      let updateStage :=
        if lastMeasuredKey == key ∧ e.stage == Stage.measured then Stage.moved
        else if lastMeasuredKey == key ∧ e.stage == Stage.moved then Stage.placed
        else Stage.placed
      (s.1 ++ [⟨updateStage, s.1.length, lt.1, lt.2, some e.width, some e.height, key⟩],
        s.2)
  | none =>
      if s.2 then s
      else
        let lt := calcNextItemPosition cfg pairs s.1 s.1.length
        (s.1 ++ [⟨Stage.unknown, s.1.length, lt.1, lt.2, none, none, key⟩], true)

/-- `computeLayout(lastMeasuredKey = "")` as a pure function of the
ordered keys and size cache: the source first resets
`layoutRef.current.positions = []` (line 262) and sets
`unknownRendered = false`, then walks the ordered keys. -/
def computeLayout (cfg : LayoutConfig) (pairs : List SizePair)
    (lastMeasuredKey : String) (keys : List String) : List ItemPosition :=
  (keys.foldl (computeLayoutStep cfg pairs lastMeasuredKey) ([], false)).1

/-- `computeLayout` as the state transformer it is in the source: the
stored position array `_prior` is discarded by the reset on line 262
before anything reads it, which is exactly why the recomputation is
deterministic. -/
def computeLayoutS (cfg : LayoutConfig) (pairs : List SizePair)
    (lastMeasuredKey : String) (keys : List String)
    (_prior : List ItemPosition) : List ItemPosition :=
  computeLayout cfg pairs lastMeasuredKey keys

/-- The state owned by `useSequentialLayout`: `keysRef`,
`layoutRef.current.positions`, and `itemSizeCache.current.pairs`. -/
structure LayoutState where
  keys : List String
  positions : List ItemPosition
  pairs : List SizePair
deriving Repr, DecidableEq

/-- The upsert of `confirmItemSize` (lines 460-476): update the cache
entry for `key` in place, or push a new one. -/
def upsertPair (pairs : List SizePair) (e : SizePair) : List SizePair :=
  let pairIndex := jsFindIndex (fun p => p.key == e.key) pairs
  if pairIndex ≠ -1 then pairs.set pairIndex.toNat e
  else pairs ++ [e]

/-- Structural reformulation of `upsertPair` (update the first entry with
a matching key in place, else push): used to reason about the upsert. -/
def upsertAlt (pairs : List SizePair) (e : SizePair) : List SizePair :=
  match pairs with
  | [] => [e]
  | p :: ps => if p.key == e.key then e :: ps else p :: upsertAlt ps e

/-- `confirmItemSize` (useAutoScroll.ts lines 449-481): look up the key's
index in the *current* position array; a miss returns `undefined` with no
mutation; otherwise upsert the size cache (skipped for the falsy empty
key), recompute the layout with `lastMeasuredKey = key`, and return
`positions[index]` at the *old* index — `none` when the new array is
shorter. -/
def confirmItemSize (cfg : LayoutConfig) (width height : Int) (key : String)
    (stage : Stage) (st : LayoutState) : LayoutState × Option ItemPosition :=
  let index := jsFindIndex (fun p => p.key == key) st.positions
  if index < 0 then (st, none)
  else
    let pairs' := if key ≠ "" then upsertPair st.pairs ⟨key, width, height, stage⟩
                  else st.pairs
    let positions' := computeLayoutS cfg pairs' key st.keys st.positions
    ({ st with pairs := pairs', positions := positions' }, positions'.get? index.toNat)

/-- `shiftPositions` (useAutoScroll.ts lines 399-439).  The early returns:
empty position array; `fromKey`/`toKey` missing from the key list (full
no-op); `fromKey`/`toKey` missing from the position array — in that last
case the key list has *already* been reassigned (line 420) and the
function returns before touching positions or recomputing.  Otherwise
both lists get the splice-out/splice-in reorder and `computeLayout()`
recomputes coordinates. -/
def shiftPositions (cfg : LayoutConfig) (fromKey toKey : String)
    (st : LayoutState) : LayoutState :=
  if st.positions.isEmpty then st
  else
    let fromIndex := jsFindIndex (fun k => k == fromKey) st.keys
    let toIndex := jsFindIndex (fun k => k == toKey) st.keys
    if fromIndex = -1 ∨ toIndex = -1 then st
    else
      -- `newKeys.splice(fromIndex, 1)` removes `keys[fromIndex]`, which is
      -- `fromKey` itself; `newKeys.splice(toIndex, 0, keyElement)` reinserts it.
      let newKeys := (st.keys.eraseIdx fromIndex.toNat).insertIdx toIndex.toNat fromKey
      let fromPosIndex := jsFindIndex (fun p => p.key == fromKey) st.positions
      let toPosIndex := jsFindIndex (fun p => p.key == toKey) st.positions
      if fromPosIndex = -1 ∨ toPosIndex = -1 then
        { st with keys := newKeys }
      else
        let newPositions :=
          match st.positions.get? fromPosIndex.toNat with
          | some posElement =>
              (st.positions.eraseIdx fromPosIndex.toNat).insertIdx
                toPosIndex.toNat posElement
          | none => st.positions.eraseIdx fromPosIndex.toNat
        { keys := newKeys,
          positions := computeLayoutS cfg st.pairs "" newKeys newPositions,
          pairs := st.pairs }

/-! ## Virtual Window Calculator (`useVirtualScroll`, useChildOrder.ts
lines 109-277)

The position table may be sparse: entries can be missing (`none`) and a
present entry's `height` may still be unmeasured.  `scrollTop`,
`viewportHeight` and coordinates are `Int` pixels. -/

/-- An entry of the position table as the virtual scroller reads it. -/
structure VPos where
  top : Int
  height : Option Int
deriving Repr, DecidableEq

/-- `positions[i]` on a possibly sparse array: `none` at a hole or beyond
the end. -/
def posAt (positions : List (Option VPos)) (i : Nat) : Option VPos :=
  positions.getD i none

/-- `findFirstVisible(from, scrollPos)` (lines 222-234): linear scan for
the first item whose bottom is below `scrollPos`; returns
`itemCount - 1` when none qualifies. -/
def findFirstVisible (positions : List (Option VPos)) (itemCount : Nat)
    (scrollPos : Int) (i : Nat) : Int :=
  if _h : i < itemCount then
    match posAt positions i with
    | some p =>
        match p.height with
        | some ph =>
            if p.top + ph > scrollPos then (i : Int)
            else findFirstVisible positions itemCount scrollPos (i + 1)
        | none => findFirstVisible positions itemCount scrollPos (i + 1)
    | none => findFirstVisible positions itemCount scrollPos (i + 1)
  else (itemCount : Int) - 1
termination_by itemCount - i

/-- `findLastVisible(from, scrollPos)` (lines 240-248): linear scan for
the first item entirely below `scrollPos`; returns `itemCount - 1` when
none qualifies. -/
def findLastVisible (positions : List (Option VPos)) (itemCount : Nat)
    (scrollPos : Int) (i : Nat) : Int :=
  if _h : i < itemCount then
    match posAt positions i with
    | some p =>
        if p.top > scrollPos then (i : Int)
        else findLastVisible positions itemCount scrollPos (i + 1)
    | none => findLastVisible positions itemCount scrollPos (i + 1)
  else (itemCount : Int) - 1
termination_by itemCount - i

/-- The first binary-search loop of `updateVisibleRange` (lines 148-174):
searches for the first visible item; a missing entry or missing height
breaks out to the linear fallback `findFirstVisible(0, scrollTop)`.
`startIdx` stays a nonnegative machine number (`lo : Nat`) while
`endIdx` can reach `-1` (`hi : Int`). -/
def firstVisibleSearch (positions : List (Option VPos)) (itemCount : Nat)
    (scrollTop scrollBottom : Int) (lo : Nat) (hi : Int) : Int :=
  if _h : (lo : Int) ≤ hi then
    let mid : Nat := (lo + hi.toNat) / 2
    match posAt positions mid with
    | none => findFirstVisible positions itemCount scrollTop 0
    | some p =>
        match p.height with
        | none => findFirstVisible positions itemCount scrollTop 0
        | some ph =>
            if p.top + ph > scrollTop ∧ p.top < scrollBottom then
              firstVisibleSearch positions itemCount scrollTop scrollBottom lo
                ((mid : Int) - 1)
            else if p.top + ph ≤ scrollTop then
              firstVisibleSearch positions itemCount scrollTop scrollBottom
                (mid + 1) hi
            else
              firstVisibleSearch positions itemCount scrollTop scrollBottom lo
                ((mid : Int) - 1)
  else (lo : Int)
termination_by (hi + 1 - (lo : Int)).toNat
decreasing_by all_goals (simp_wf; omega)

/-- The second binary-search loop (lines 180-202): searches for the first
item whose top is below the viewport bottom, tracking the best candidate
in `found` (initially `itemCount`); a missing entry breaks out to
`findLastVisible(0, scrollBottom)`. -/
def firstInvisibleSearch (positions : List (Option VPos)) (itemCount : Nat)
    (scrollBottom : Int) (lo : Nat) (hi : Int) (found : Int) : Int :=
  if _h : (lo : Int) ≤ hi then
    let mid : Nat := (lo + hi.toNat) / 2
    match posAt positions mid with
    | none => findLastVisible positions itemCount scrollBottom 0
    | some p =>
        if p.top > scrollBottom then
          firstInvisibleSearch positions itemCount scrollBottom lo
            ((mid : Int) - 1) (mid : Int)
        else
          firstInvisibleSearch positions itemCount scrollBottom (mid + 1) hi found
  else found
termination_by (hi + 1 - (lo : Int)).toNat
decreasing_by all_goals (simp_wf; omega)

/-- `updateVisibleRange` (lines 127-217) as a function of the scroll
state: `none` models the early return (no positions or no items — the
`isScrolling`/missing-container guards are environmental); otherwise the
`(start, end)` half-open range that is stored by `setVisibleRange`. -/
def updateVisibleRange (positions : List (Option VPos)) (itemCount : Nat)
    (buffer : Nat) (scrollTop viewportHeight : Int) : Option (Int × Int) :=
  if positions.isEmpty ∨ itemCount = 0 then none
  else
    let scrollBottom := scrollTop + viewportHeight
    let startIdx0 := firstVisibleSearch positions itemCount scrollTop scrollBottom
      0 ((itemCount : Int) - 1)
    let startIdx1 := max 0 (min startIdx0 ((itemCount : Int) - 1) - (buffer : Int))
    let startIdx2 := max 0 startIdx1
    let firstInvisibleIdx := firstInvisibleSearch positions itemCount scrollBottom
      0 ((itemCount : Int) - 1) (itemCount : Int)
    let endIdx := min (min ((itemCount : Int) - 1)
      (firstInvisibleIdx + (buffer : Int) - 1)) (positions.length : Int)
    some (if scrollTop ≤ 0 then 0 else startIdx2, endIdx + 1)

end Sentereige

namespace Sentereige

theorem dedup_length_eq_iff_nodup (l : List String) :
    l.dedup.length = l.length ↔ l.Nodup := by
  constructor
  · intro h
    have hsub : l.dedup.Sublist l := List.dedup_sublist l
    have heq := List.Sublist.eq_of_length hsub h
    exact heq ▸ List.nodup_dedup l
  · intro h
    rw [List.dedup_eq_self.2 h]

theorem extractKeys_append (a b : List RChild) :
    extractKeys (a ++ b) = extractKeys a ++ extractKeys b := by
  simp [extractKeys]

theorem not_nodup_of_split (k : String) (l1 l2 l3 : List RChild) :
    ¬ (extractKeys (l1 ++ ⟨some k⟩ :: l2 ++ ⟨some k⟩ :: l3)).Nodup := by
  intro h
  have hc := List.nodup_iff_count_le_one.1 h k
  have : extractKeys (l1 ++ ⟨some k⟩ :: l2 ++ ⟨some k⟩ :: l3)
      = extractKeys l1 ++ k :: (extractKeys l2 ++ k :: extractKeys l3) := by
    simp [extractKeys]
  rw [this] at hc
  simp [List.count_append, List.count_cons] at hc
  omega

/-- C2: whenever the collection handed to the Child Order Manager contains
two items sharing the same non-null key (here written as an explicit split
`l1 ++ [key k] ++ l2 ++ [key k] ++ l3`), the update raises the fatal
error, and the previously stored ordered children and ordered keys are
left unchanged (no partial mutation).  This covers initial setup, the
prop-update effect, and `updateChildren`, which all run the identical
validation before any state write. -/
theorem C2_duplicate_key_update_errors (l1 l2 l3 : List RChild) (k : String)
    (st : ChildrenOrder) :
    updateChildren (l1 ++ ⟨some k⟩ :: l2 ++ ⟨some k⟩ :: l3) st
        = Except.error "All children must have unique, non-null keys." ∧
      applyUpdate (l1 ++ ⟨some k⟩ :: l2 ++ ⟨some k⟩ :: l3) st = st := by
  have h2 := not_nodup_of_split k l1 l2 l3
  have h3 : (extractKeys (l1 ++ ⟨some k⟩ :: l2 ++ ⟨some k⟩ :: l3)).dedup.length
      ≠ (extractKeys (l1 ++ ⟨some k⟩ :: l2 ++ ⟨some k⟩ :: l3)).length :=
    fun h => h2 ((dedup_length_eq_iff_nodup _).1 h)
  have h1 : (l1 ++ ⟨some k⟩ :: l2 ++ ⟨some k⟩ :: l3 : List RChild).isEmpty = false := by
    simp
  have goal1 : updateChildren (l1 ++ ⟨some k⟩ :: l2 ++ ⟨some k⟩ :: l3) st
      = Except.error "All children must have unique, non-null keys." := by
    unfold updateChildren
    rw [h1]
    simp only [Bool.false_eq_true, if_false]
    exact if_pos h3
  refine ⟨goal1, ?_⟩
  unfold applyUpdate
  rw [goal1]

/-- C3 evaluation: a collection whose first item has a null key is
*accepted* by the Child Order Manager — `updateChildren` returns `ok`,
storing the null-keyed child while silently dropping its key from the
key list, instead of raising the error its own documentation
(`@throws Error if children do not have unique, non-null keys`) and
error message promise.  Exhibits the code bug behind claim C3. -/
theorem C3_null_key_silently_accepted :
    updateChildren [⟨none⟩, ⟨some "a"⟩] ⟨[], []⟩
      = Except.ok ⟨[⟨none⟩, ⟨some "a"⟩], ["a"]⟩ := by
  rfl

/-- C4 counterexample: with the default tolerance (50px), a pointer-down
on item `"a"` at (0,0), a move to (51,0) — exactly tolerance+1 pixels —
before the long-press timer fires, and a release, ends with `clicks = []`:
the click callback is *not* invoked on release, refuting the second half
of the claim (the cancel clears `initialPressCoordsRef`, so the
`handleMouseUp` click branch is skipped; the release would also fail its
own `distance <= tolerance` re-check).  No drag starts either. -/
theorem C4_counterexample :
    (runDrag ⟨true, 50, fun _ => true⟩
        [DragEvent.down "a" (0, 0), DragEvent.move (51, 0),
         DragEvent.up (51, 0)]).clicks = [] ∧
    (runDrag ⟨true, 50, fun _ => true⟩
        [DragEvent.down "a" (0, 0), DragEvent.move (51, 0),
         DragEvent.up (51, 0)]).dragStarts = [] := by
  exact ⟨rfl, rfl⟩

/-- C4 amended: a pointer-down on a sortable, mounted item followed —
before `longPressDelayMs` elapses — by a move whose distance from the
press point exceeds `longPressMoveTolerancePx` cancels the pending drag
(no drag ever starts, even if the timeout later fires), and the
subsequent pointer release does *not* invoke the click callback: the
gesture is treated as a scroll, and the click callback only fires when
the total movement stays within tolerance. -/
theorem C4_amended (tol : Int) (present : String → Bool) (k : String)
    (c0 c1 c2 : Int × Int) (hp : present k = true)
    (hmove : sqDist c1 c0 > tol ^ 2) :
    (runDrag ⟨true, tol, present⟩
        [DragEvent.down k c0, DragEvent.move c1, DragEvent.up c2]).clicks = [] ∧
    (runDrag ⟨true, tol, present⟩
        [DragEvent.down k c0, DragEvent.move c1, DragEvent.up c2]).dragStarts = [] ∧
    (runDrag ⟨true, tol, present⟩
        [DragEvent.down k c0, DragEvent.move c1, DragEvent.up c2]).draggingId = none ∧
    (runDrag ⟨true, tol, present⟩
        [DragEvent.down k c0, DragEvent.move c1, DragEvent.timer,
         DragEvent.up c2]).clicks = [] ∧
    (runDrag ⟨true, tol, present⟩
        [DragEvent.down k c0, DragEvent.move c1, DragEvent.timer,
         DragEvent.up c2]).dragStarts = [] := by
  simp [runDrag, dragStep, handleMouseDown, handleMouseMove, longPressFire,
    handleMouseUp, initDragSim, hp, hmove]

/-- C4 amended, witness: the concrete scenario (tolerance 50, movement of
51 pixels) satisfies the hypotheses, and the amended conclusions hold. -/
theorem C4_amended_witness :
    ((fun _ => true) "a" = true ∧ sqDist (51, 0) (0, 0) > 50 ^ 2) ∧
    ((runDrag ⟨true, 50, fun _ => true⟩
        [DragEvent.down "a" (0, 0), DragEvent.move (51, 0),
         DragEvent.up (51, 0)]).clicks = [] ∧
     (runDrag ⟨true, 50, fun _ => true⟩
        [DragEvent.down "a" (0, 0), DragEvent.move (51, 0),
         DragEvent.up (51, 0)]).dragStarts = [] ∧
     (runDrag ⟨true, 50, fun _ => true⟩
        [DragEvent.down "a" (0, 0), DragEvent.move (51, 0),
         DragEvent.up (51, 0)]).draggingId = none ∧
     (runDrag ⟨true, 50, fun _ => true⟩
        [DragEvent.down "a" (0, 0), DragEvent.move (51, 0), DragEvent.timer,
         DragEvent.up (51, 0)]).clicks = [] ∧
     (runDrag ⟨true, 50, fun _ => true⟩
        [DragEvent.down "a" (0, 0), DragEvent.move (51, 0), DragEvent.timer,
         DragEvent.up (51, 0)]).dragStarts = []) :=
  ⟨⟨rfl, by decide⟩,
    C4_amended 50 (fun _ => true) "a" (0, 0) (51, 0) (51, 0) rfl (by decide)⟩

/-! ### Sequential layout: helper lemmas -/

theorem foldl_min_le_init (xs : List Int) (a : Int) : xs.foldl min a ≤ a := by
  induction xs generalizing a with
  | nil => simp
  | cons x xs ih => exact le_trans (ih (min a x)) (min_le_left a x)

theorem foldl_min_le_mem (xs : List Int) (x : Int) :
    ∀ a : Int, x ∈ xs → xs.foldl min a ≤ x := by
  induction xs with
  | nil => intro a hx; cases hx
  | cons y ys ih =>
      intro a hx
      rcases List.mem_cons.1 hx with h | h
      · subst h
        exact le_trans (foldl_min_le_init ys (min a x)) (min_le_right a x)
      · exact ih (min a y) h

theorem listMin_le (l : List Int) (x : Int) (hx : x ∈ l) : listMin l ≤ x := by
  cases l with
  | nil => cases hx
  | cons a xs =>
      rcases List.mem_cons.1 hx with h | h
      · subst h; exact foldl_min_le_init xs x
      · exact foldl_min_le_mem xs x a h

theorem foldl_min_mem (xs : List Int) : ∀ a : Int, xs.foldl min a ∈ a :: xs := by
  induction xs with
  | nil => intro a; simp
  | cons x xs ih =>
      intro a
      rw [List.foldl_cons]
      have h := ih (min a x)
      rcases List.mem_cons.1 h with h1 | h1
      · rcases min_choice a x with h2 | h2
        · rw [h1, h2]; exact List.mem_cons_self a (x :: xs)
        · rw [h1, h2]
          exact List.mem_cons.2 (Or.inr (List.mem_cons_self x xs))
      · exact List.mem_cons.2 (Or.inr (List.mem_cons.2 (Or.inr h1)))

theorem listMin_mem (l : List Int) (h : l ≠ []) : listMin l ∈ l := by
  cases l with
  | nil => exact absurd rfl h
  | cons a xs => exact foldl_min_mem xs a

theorem init_le_foldl_max (xs : List Int) (a : Int) : a ≤ xs.foldl max a := by
  induction xs generalizing a with
  | nil => simp
  | cons x xs ih => exact le_trans (le_max_left a x) (ih (max a x))

theorem mem_le_foldl_max (xs : List Int) (x : Int) :
    ∀ a : Int, x ∈ xs → x ≤ xs.foldl max a := by
  induction xs with
  | nil => intro a hx; cases hx
  | cons y ys ih =>
      intro a hx
      rcases List.mem_cons.1 hx with h | h
      · subst h
        exact le_trans (le_max_right a x) (init_le_foldl_max ys (max a x))
      · exact ih (max a y) h

theorem le_listMax (l : List Int) (x : Int) (hx : x ∈ l) : x ≤ listMax l := by
  cases l with
  | nil => cases hx
  | cons a xs =>
      rcases List.mem_cons.1 hx with h | h
      · subst h; exact init_le_foldl_max xs x
      · exact mem_le_foldl_max xs x a h

theorem foldl_max_mem (xs : List Int) : ∀ a : Int, xs.foldl max a ∈ a :: xs := by
  induction xs with
  | nil => intro a; simp
  | cons x xs ih =>
      intro a
      rw [List.foldl_cons]
      have h := ih (max a x)
      rcases List.mem_cons.1 h with h1 | h1
      · rcases max_choice a x with h2 | h2
        · rw [h1, h2]; exact List.mem_cons_self a (x :: xs)
        · rw [h1, h2]
          exact List.mem_cons.2 (Or.inr (List.mem_cons_self x xs))
      · exact List.mem_cons.2 (Or.inr (List.mem_cons.2 (Or.inr h1)))

theorem listMax_mem (l : List Int) (h : l ≠ []) : listMax l ∈ l := by
  cases l with
  | nil => exact absurd rfl h
  | cons a xs => exact foldl_max_mem xs a

theorem mem_addToShortest (cols : List Int) (v x : Int)
    (hx : x ∈ addToShortest cols v) : x ∈ cols ∨ x = listMin cols + v := by
  unfold addToShortest at hx
  exact List.mem_or_eq_of_mem_set hx

theorem length_addToShortest (cols : List Int) (v : Int) :
    (addToShortest cols v).length = cols.length := by
  unfold addToShortest
  exact List.length_set cols _ _

/-- The balance invariant of the shortest-column loop: all column heights
lie in a window of width `v`. -/
def ColsBalanced (v : Int) (cols : List Int) : Prop :=
  ∃ m, ∀ x ∈ cols, m ≤ x ∧ x ≤ m + v

theorem colsBalanced_addToShortest (v w : Int) (cols : List Int) (_hv : 0 ≤ v)
    (hw : w ≤ v) (hw0 : 0 ≤ w) (hb : ColsBalanced v cols) :
    ColsBalanced v (addToShortest cols w) := by
  rcases List.eq_nil_or_concat cols with hnil | _
  · subst hnil
    exact ⟨0, by intro x hx; simp [addToShortest] at hx⟩
  case inr hne =>
    obtain ⟨m, hm⟩ := hb
    have hnonempty : cols ≠ [] := by
      obtain ⟨l, a, h⟩ := hne; subst h; simp
    refine ⟨listMin cols, ?_⟩
    intro x hx
    have hmin_mem := listMin_mem cols hnonempty
    have hm_le_min : m ≤ listMin cols := (hm _ hmin_mem).1
    rcases mem_addToShortest cols w x hx with h | h
    · exact ⟨listMin_le cols x h,
        le_trans (hm x h).2 (by linarith)⟩
    · subst h
      constructor
      · linarith
      · linarith

theorem colsBalanced_fill (G dH H : Int) (hv : 0 ≤ H + G) (_hG : 0 ≤ G)
    (_hH : 0 ≤ H) :
    ∀ (N : Nat) (cols : List Int), ColsBalanced (H + G) cols →
      ColsBalanced (H + G) (fillColumns G dH cols (List.replicate N (some H))) := by
  intro N
  induction N with
  | zero => intro cols h; simpa [fillColumns] using h
  | succ n ih =>
      intro cols h
      rw [List.replicate_succ]
      have hstep := colsBalanced_addToShortest (H + G) (H + G) cols hv le_rfl hv h
      have : fillColumns G dH cols (some H :: List.replicate n (some H))
          = fillColumns G dH (addToShortest cols (H + G)) (List.replicate n (some H)) := by
        simp [fillColumns, List.foldl_cons]
      rw [this]
      exact ih _ hstep

theorem fillColumns_length (G dH : Int) (hs : List (Option Int)) :
    ∀ cols : List Int, (fillColumns G dH cols hs).length = cols.length := by
  induction hs with
  | nil => intro cols; simp [fillColumns]
  | cons h t ih =>
      intro cols
      have : fillColumns G dH cols (h :: t)
          = fillColumns G dH (addToShortest cols (h.getD dH + G)) t := by
        simp [fillColumns, List.foldl_cons]
      rw [this, ih, length_addToShortest]

/-- C7: after the shortest-column accumulation loop used by
`calcNextItemPosition` places `N` items of equal cached height `H` with
gutter `G` into `C ≥ 1` columns (all starting at height 0), the maximum
accumulated column height exceeds the minimum by at most `H + G`. -/
theorem C7_shortest_column_balance (H G dH : Int) (C N : Nat)
    (hH : 0 < H) (hG : 0 ≤ G) (hC : 1 ≤ C) :
    listMax (fillColumns G dH (List.replicate C 0) (List.replicate N (some H)))
      - listMin (fillColumns G dH (List.replicate C 0) (List.replicate N (some H)))
      ≤ H + G := by
  have hv : 0 ≤ H + G := by linarith
  have hbase : ColsBalanced (H + G) (List.replicate C 0) := by
    refine ⟨0, ?_⟩
    intro x hx
    rw [List.eq_of_mem_replicate hx]
    exact ⟨le_rfl, by linarith⟩
  obtain ⟨m, hm⟩ := colsBalanced_fill G dH H hv hG (le_of_lt hH) N
    (List.replicate C 0) hbase
  have hlen : (fillColumns G dH (List.replicate C 0)
      (List.replicate N (some H))).length = C := by
    rw [fillColumns_length]; exact List.length_replicate C 0
  have hne : fillColumns G dH (List.replicate C 0) (List.replicate N (some H)) ≠ [] := by
    intro h
    rw [h] at hlen
    simp at hlen
    omega
  have h1 := (hm _ (listMax_mem _ hne)).2
  have h2 := (hm _ (listMin_mem _ hne)).1
  linarith

/-- C7 witness: placing 3 items of height 5 with gutter 1 into 2 columns
keeps the spread within 6. -/
theorem C7_shortest_column_balance_witness :
    ((0 : Int) < 5 ∧ (0 : Int) ≤ 1 ∧ 1 ≤ 2) ∧
      listMax (fillColumns 1 300 (List.replicate 2 0) (List.replicate 3 (some 5)))
        - listMin (fillColumns 1 300 (List.replicate 2 0) (List.replicate 3 (some 5)))
        ≤ 5 + 1 :=
  ⟨⟨by decide, by decide, by decide⟩,
    C7_shortest_column_balance 5 1 300 2 3 (by decide) (by decide) (by decide)⟩

/-- C9: `computeLayout` is deterministic and idempotent on the stored
layout state: for a fixed ordered key list, size cache, container width
and `lastMeasuredKey`, the recomputation does not depend on the previously
stored position array (which the source resets before reading), so two
successive runs produce identical position lists. -/
theorem C9_computeLayout_deterministic (cfg : LayoutConfig)
    (pairs : List SizePair) (lastMeasuredKey : String) (keys : List String)
    (s1 s2 : List ItemPosition) :
    computeLayoutS cfg pairs lastMeasuredKey keys s1
        = computeLayoutS cfg pairs lastMeasuredKey keys s2 ∧
      computeLayoutS cfg pairs lastMeasuredKey keys
          (computeLayoutS cfg pairs lastMeasuredKey keys s1)
        = computeLayoutS cfg pairs lastMeasuredKey keys s1 :=
  ⟨rfl, rfl⟩

theorem updateStage_ne_unknown (c1 c2 : Prop) [Decidable c1] [Decidable c2] :
    ((if c1 then Stage.moved else if c2 then Stage.placed else Stage.placed)
      == Stage.unknown) = false := by
  split
  · rfl
  · split <;> rfl

/-- Case analysis on one `computeLayout` iteration: either the key is
skipped, or exactly one entry is appended, carrying this key and the next
array index. -/
theorem computeLayoutStep_cases (cfg : LayoutConfig) (pairs : List SizePair)
    (lk : String) (s : List ItemPosition × Bool) (k : String) :
    (computeLayoutStep cfg pairs lk s k).1 = s.1 ∨
      ∃ entry : ItemPosition, (computeLayoutStep cfg pairs lk s k).1 = s.1 ++ [entry]
        ∧ entry.key = k ∧ entry.index = s.1.length := by
  unfold computeLayoutStep
  cases h : sizedLookup pairs k with
  | some e => exact Or.inr ⟨_, rfl, rfl, rfl⟩
  | none =>
      by_cases hs : s.2
      · left
        rw [if_pos hs]
      · right
        rw [if_neg hs]
        exact ⟨_, rfl, rfl, rfl⟩

theorem unknown_count_step (cfg : LayoutConfig) (pairs : List SizePair)
    (lk : String) (s : List ItemPosition × Bool) (k : String) :
    (computeLayoutStep cfg pairs lk s k).1.countP (fun pos => pos.stage == Stage.unknown)
        + (if (computeLayoutStep cfg pairs lk s k).2 then 0 else 1)
      ≤ s.1.countP (fun pos => pos.stage == Stage.unknown) + (if s.2 then 0 else 1) := by
  unfold computeLayoutStep
  cases h : sizedLookup pairs k with
  | some e =>
      by_cases hs : s.2 <;>
        simp [hs, List.countP_append, List.countP_cons, updateStage_ne_unknown] <;>
        (split <;> rfl)
  | none =>
      by_cases hs : s.2
      · simp [hs]
      · have hb : (Stage.unknown == Stage.unknown) = true := rfl
        simp [hs, List.countP_append, List.countP_cons, hb]

theorem unknown_count_aux (cfg : LayoutConfig) (pairs : List SizePair)
    (lk : String) :
    ∀ (ks : List String) (s : List ItemPosition × Bool),
      (ks.foldl (computeLayoutStep cfg pairs lk) s).1.countP
          (fun pos => pos.stage == Stage.unknown)
        + (if (ks.foldl (computeLayoutStep cfg pairs lk) s).2 then 0 else 1)
      ≤ s.1.countP (fun pos => pos.stage == Stage.unknown)
        + (if s.2 then 0 else 1) := by
  intro ks
  induction ks with
  | nil => intro s; simp
  | cons k ks ih =>
      intro s
      rw [List.foldl_cons]
      exact le_trans (ih _) (unknown_count_step cfg pairs lk s k)

/-- C6: for every ordered key list and size cache, the position list
produced by `computeLayout` contains at most one entry whose stage is
`unknown` (the `unknownRendered` flag suppresses further probes). -/
theorem C6_single_unknown_probe (cfg : LayoutConfig) (pairs : List SizePair)
    (lk : String) (keys : List String) :
    (computeLayout cfg pairs lk keys).countP
      (fun pos => pos.stage == Stage.unknown) ≤ 1 := by
  have h := unknown_count_aux cfg pairs lk keys ([], false)
  simp only [List.countP_nil, if_neg Bool.false_ne_true, zero_add] at h
  unfold computeLayout
  omega

theorem computeLayout_build (cfg : LayoutConfig) (pairs : List SizePair)
    (lk : String) :
    ∀ (ks : List String) (s : List ItemPosition × Bool),
      ∃ t, (ks.foldl (computeLayoutStep cfg pairs lk) s).1 = s.1 ++ t ∧
        (t.map (·.key)).Sublist ks := by
  intro ks
  induction ks with
  | nil => intro s; exact ⟨[], by simp, by simp⟩
  | cons k ks ih =>
      intro s
      rw [List.foldl_cons]
      obtain ⟨t, ht, hsub⟩ := ih (computeLayoutStep cfg pairs lk s k)
      rcases computeLayoutStep_cases cfg pairs lk s k with hc | ⟨entry, hc, hk, _⟩
      · rw [hc] at ht
        exact ⟨t, ht, hsub.cons k⟩
      · rw [hc] at ht
        refine ⟨entry :: t, ?_, ?_⟩
        · rw [ht]; simp
        · rw [List.map_cons, hk]
          exact List.Sublist.cons₂ k hsub

theorem computeLayout_indices (cfg : LayoutConfig) (pairs : List SizePair)
    (lk : String) :
    ∀ (ks : List String) (s : List ItemPosition × Bool),
      s.1.map (·.index) = List.range s.1.length →
      (ks.foldl (computeLayoutStep cfg pairs lk) s).1.map (·.index)
        = List.range (ks.foldl (computeLayoutStep cfg pairs lk) s).1.length := by
  intro ks
  induction ks with
  | nil => intro s h; simpa using h
  | cons k ks ih =>
      intro s h
      rw [List.foldl_cons]
      refine ih _ ?_
      rcases computeLayoutStep_cases cfg pairs lk s k with hc | ⟨entry, hc, _, hidx⟩
      · rw [hc]; exact h
      · rw [hc, List.map_append, List.length_append, h, List.map_cons, List.map_nil,
          hidx]
        simp [List.range_succ]

/-- C10: for every ordered key list with pairwise-distinct keys and every
size cache, the position list produced by `computeLayout` is well-formed:
the `index` fields are exactly the array positions `0, 1, 2, ...`, and
the sequence of entry keys is an order-preserving subsequence of the
ordered key list — hence pairwise distinct. -/
theorem C10_positions_wellformed (cfg : LayoutConfig) (pairs : List SizePair)
    (lk : String) (keys : List String) (hnd : keys.Nodup) :
    (computeLayout cfg pairs lk keys).map (·.index)
        = List.range (computeLayout cfg pairs lk keys).length ∧
      ((computeLayout cfg pairs lk keys).map (·.key)).Sublist keys ∧
      ((computeLayout cfg pairs lk keys).map (·.key)).Nodup := by
  obtain ⟨t, ht, hsub⟩ := computeLayout_build cfg pairs lk keys ([], false)
  have h1 := computeLayout_indices cfg pairs lk keys ([], false) (by simp)
  have h2 : ((computeLayout cfg pairs lk keys).map (·.key)).Sublist keys := by
    unfold computeLayout
    rw [ht]
    simpa using hsub
  exact ⟨h1, h2, h2.nodup hnd⟩

/-- C10 witness: a concrete two-key layout (one measured, one probe)
satisfies all three well-formedness conclusions. -/
theorem C10_positions_wellformed_witness :
    (["a", "b"] : List String).Nodup ∧
      ((computeLayout ⟨0, 100, 10, 300⟩ [⟨"a", 5, 7, Stage.placed⟩] "" ["a", "b"]).map
          (·.index)
        = List.range (computeLayout ⟨0, 100, 10, 300⟩ [⟨"a", 5, 7, Stage.placed⟩] ""
            ["a", "b"]).length ∧
      ((computeLayout ⟨0, 100, 10, 300⟩ [⟨"a", 5, 7, Stage.placed⟩] "" ["a", "b"]).map
          (·.key)).Sublist ["a", "b"] ∧
      ((computeLayout ⟨0, 100, 10, 300⟩ [⟨"a", 5, 7, Stage.placed⟩] "" ["a", "b"]).map
          (·.key)).Nodup) :=
  ⟨by decide,
    C10_positions_wellformed ⟨0, 100, 10, 300⟩ [⟨"a", 5, 7, Stage.placed⟩] ""
      ["a", "b"] (by decide)⟩

/-! ### `jsFindIndex` lemmas -/

theorem jsFindIndex_range {α : Type} (p : α → Bool) :
    ∀ l : List α, jsFindIndex p l = -1 ∨ 0 ≤ jsFindIndex p l := by
  intro l
  induction l with
  | nil => exact Or.inl rfl
  | cons y ys ih =>
      unfold jsFindIndex
      by_cases hy : p y = true
      · rw [if_pos hy]; right; decide
      · rw [if_neg hy]
        rcases ih with h | h
        · rw [h]; left; simp
        · have hne : jsFindIndex p ys ≠ -1 := by omega
          simp only [if_neg hne]
          right; omega

theorem jsFindIndex_of_forall_false {α : Type} (p : α → Bool) :
    ∀ l : List α, (∀ x ∈ l, p x = false) → jsFindIndex p l = -1 := by
  intro l
  induction l with
  | nil => intro _; rfl
  | cons y ys ih =>
      intro h
      have hy := h y (List.mem_cons_self y ys)
      have hih := ih (fun x hx => h x (List.mem_cons.2 (Or.inr hx)))
      simp [jsFindIndex, hy, hih]

theorem jsFindIndex_ne_neg_one {α : Type} (p : α → Bool) (x : α) (hp : p x = true) :
    ∀ l : List α, x ∈ l → jsFindIndex p l ≠ -1 := by
  intro l
  induction l with
  | nil => intro hx; cases hx
  | cons y ys ih =>
      intro hx h
      unfold jsFindIndex at h
      by_cases hy : p y = true
      · rw [if_pos hy] at h
        exact absurd h (by decide)
      · rw [if_neg hy] at h
        rcases List.mem_cons.1 hx with h1 | h1
        · subst h1; exact hy hp
        · by_cases hr : jsFindIndex p ys = -1
          · exact ih h1 hr
          · rw [if_neg hr] at h
            rcases jsFindIndex_range p ys with h2 | h2
            · exact hr h2
            · omega

theorem jsFindIndex_append {α : Type} (p : α → Bool) (e : α) (R : List α)
    (he : p e = true) :
    ∀ P : List α, (∀ x ∈ P, p x = false) →
      jsFindIndex p (P ++ e :: R) = (P.length : Int) := by
  intro P
  induction P with
  | nil => intro _; simp [jsFindIndex, he]
  | cons y ys ih =>
      intro hP
      have hy := hP y (List.mem_cons_self y ys)
      have hih := ih (fun x hx => hP x (List.mem_cons.2 (Or.inr hx)))
      rw [List.cons_append]
      unfold jsFindIndex
      rw [hy, hih]
      have hne2 : (ys.length : Int) ≠ -1 := by omega
      simp only [Bool.false_eq_true, if_false, if_neg hne2, List.length_cons]
      push_cast
      ring

theorem jsFindIndex_eq_firstIndex {α : Type} [BEq α] (a : α) :
    ∀ l : List α, jsFindIndex (fun x => x == a) l ≠ -1 →
      jsFindIndex (fun x => x == a) l = (firstIndex a l : Int) := by
  intro l
  induction l with
  | nil => intro h; exact absurd rfl h
  | cons y ys ih =>
      intro h
      unfold jsFindIndex at h ⊢
      unfold firstIndex
      by_cases hy : (y == a) = true
      · rw [if_pos hy] at h ⊢
        rw [if_pos hy]
        rfl
      · rw [if_neg hy] at h ⊢
        rw [if_neg hy]
        by_cases hr : jsFindIndex (fun x => x == a) ys = -1
        · rw [if_pos hr] at h
          exact absurd rfl h
        · rw [if_neg hr] at h ⊢
          rw [ih hr]
          push_cast
          ring

theorem eraseIdx_firstIndex {α : Type} [BEq α] (a : α) :
    ∀ l : List α, l.eraseIdx (firstIndex a l) = l.erase a := by
  intro l
  induction l with
  | nil => rfl
  | cons y ys ih =>
      unfold firstIndex
      by_cases hy : (y == a) = true
      · rw [if_pos hy, List.erase_cons, if_pos hy]
        rfl
      · rw [if_neg hy, List.erase_cons, if_neg hy, List.eraseIdx_cons_succ, ih]

theorem get?_append_middle {α : Type} (e : α) (l2 : List α) :
    ∀ l1 : List α, (l1 ++ e :: l2).get? l1.length = some e := by
  intro l1
  induction l1 with
  | nil => rfl
  | cons x xs ih => simpa using ih

/-! ### C8: `shiftPositions` -/

/-- C8 counterexample: with an ordered key list `["a", "b"]` containing
both keys but an empty position array (no layout computed yet),
`shiftPositions "a" "b"` is a warn-and-return no-op: the key list is
*not* reordered, contradicting the claim that every key list containing
both keys gets the remove/reinsert treatment. -/
theorem C8_counterexample :
    "a" ∈ (["a", "b"] : List String) ∧ "b" ∈ (["a", "b"] : List String) ∧
      shiftPositions ⟨0, 100, 10, 300⟩ "a" "b" ⟨["a", "b"], [], []⟩
        = ⟨["a", "b"], [], []⟩ := by
  refine ⟨by decide, by decide, rfl⟩

/-- C8 amended: provided `fromKey` and `toKey` occur in the ordered key
list *and* in the current position list, `shiftPositions` removes
`fromKey` and reinserts it at `toKey`'s pre-removal index (immediately
beside `toKey`: after it when dragging forward, before it when dragging
backward — on `[a,b,c]`, `shiftPositions a c` yields `[b,c,a]`), leaves
the size cache alone, and recomputes the position list from the reordered
keys via `computeLayout`.  If either key is absent from the ordered key
list the whole operation is a no-op that returns the state unchanged. -/
theorem C8_shiftPositions_amended (cfg : LayoutConfig) (fromKey toKey : String)
    (st : LayoutState) :
    (fromKey ∈ st.keys → toKey ∈ st.keys →
      fromKey ∈ st.positions.map (·.key) → toKey ∈ st.positions.map (·.key) →
      (shiftPositions cfg fromKey toKey st).keys
          = (st.keys.erase fromKey).insertIdx (firstIndex toKey st.keys) fromKey ∧
        (shiftPositions cfg fromKey toKey st).positions
          = computeLayout cfg st.pairs ""
              ((st.keys.erase fromKey).insertIdx (firstIndex toKey st.keys) fromKey) ∧
        (shiftPositions cfg fromKey toKey st).pairs = st.pairs) ∧
    ((fromKey ∉ st.keys ∨ toKey ∉ st.keys) →
      shiftPositions cfg fromKey toKey st = st) := by
  constructor
  · intro hfk htk hfp htp
    have hne : st.positions ≠ [] := by
      intro h
      rw [h] at hfp
      cases hfp
    have hemp : st.positions.isEmpty = false := by
      simpa [List.isEmpty_iff] using hne
    obtain ⟨pf, hpf, hpfk⟩ := List.mem_map.1 hfp
    obtain ⟨pt, hpt, hptk⟩ := List.mem_map.1 htp
    have h1 : jsFindIndex (fun k => k == fromKey) st.keys ≠ -1 :=
      jsFindIndex_ne_neg_one (fun k => k == fromKey) fromKey (beq_iff_eq.2 rfl)
        st.keys hfk
    have h2 : jsFindIndex (fun k => k == toKey) st.keys ≠ -1 :=
      jsFindIndex_ne_neg_one (fun k => k == toKey) toKey (beq_iff_eq.2 rfl)
        st.keys htk
    have h3 : jsFindIndex (fun p => p.key == fromKey) st.positions ≠ -1 :=
      jsFindIndex_ne_neg_one (fun p => p.key == fromKey) pf (beq_iff_eq.2 hpfk)
        st.positions hpf
    have h4 : jsFindIndex (fun p => p.key == toKey) st.positions ≠ -1 :=
      jsFindIndex_ne_neg_one (fun p => p.key == toKey) pt (beq_iff_eq.2 hptk)
        st.positions hpt
    have hno1 : ¬(jsFindIndex (fun k => k == fromKey) st.keys = -1 ∨
        jsFindIndex (fun k => k == toKey) st.keys = -1) := by
      push_neg
      exact ⟨h1, h2⟩
    have hno2 : ¬(jsFindIndex (fun p => p.key == fromKey) st.positions = -1 ∨
        jsFindIndex (fun p => p.key == toKey) st.positions = -1) := by
      push_neg
      exact ⟨h3, h4⟩
    have he1 := jsFindIndex_eq_firstIndex fromKey st.keys h1
    have he2 := jsFindIndex_eq_firstIndex toKey st.keys h2
    unfold shiftPositions
    rw [hemp]
    simp only [Bool.false_eq_true, if_false, if_neg hno1, if_neg hno2, he1, he2,
      Int.toNat_natCast, eraseIdx_firstIndex]
    exact ⟨rfl, rfl, rfl⟩
  · intro h
    unfold shiftPositions
    by_cases hemp : st.positions.isEmpty
    · rw [if_pos hemp]
    · rw [if_neg hemp]
      have hcond : jsFindIndex (fun k => k == fromKey) st.keys = -1 ∨
          jsFindIndex (fun k => k == toKey) st.keys = -1 := by
        rcases h with h | h
        · left
          refine jsFindIndex_of_forall_false _ st.keys (fun x hx => ?_)
          refine beq_eq_false_iff_ne.2 (fun hxy => ?_)
          exact h (hxy ▸ hx)
        · right
          refine jsFindIndex_of_forall_false _ st.keys (fun x hx => ?_)
          refine beq_eq_false_iff_ne.2 (fun hxy => ?_)
          exact h (hxy ▸ hx)
      rw [if_pos hcond]

/-- C8 amended, witness: on the list container with items `a, b, c` (all
measured), `shiftPositions a c` reorders the keys to `[b, c, a]` and
recomputes the layout. -/
theorem C8_shiftPositions_amended_witness :
    ("a" ∈ (["a", "b", "c"] : List String) ∧ "b" ∈ (["a", "b", "c"] : List String)) ∧
      ((shiftPositions ⟨0, 30, 10, 300⟩ "a" "c"
          ⟨["a", "b", "c"],
            computeLayout ⟨0, 30, 10, 300⟩
              [⟨"a", 10, 10, Stage.placed⟩, ⟨"b", 10, 10, Stage.placed⟩,
                ⟨"c", 10, 10, Stage.placed⟩] "" ["a", "b", "c"],
            [⟨"a", 10, 10, Stage.placed⟩, ⟨"b", 10, 10, Stage.placed⟩,
              ⟨"c", 10, 10, Stage.placed⟩]⟩).keys
        = ((["a", "b", "c"] : List String).erase "a").insertIdx
            (firstIndex "c" ["a", "b", "c"]) "a") ∧
      ((["a", "b", "c"] : List String).erase "a").insertIdx
          (firstIndex "c" ["a", "b", "c"]) "a" = ["b", "c", "a"] := by
  refine ⟨⟨by decide, by decide⟩, ?_, by decide⟩
  exact (C8_shiftPositions_amended ⟨0, 30, 10, 300⟩ "a" "c"
      ⟨["a", "b", "c"],
        computeLayout ⟨0, 30, 10, 300⟩
          [⟨"a", 10, 10, Stage.placed⟩, ⟨"b", 10, 10, Stage.placed⟩,
            ⟨"c", 10, 10, Stage.placed⟩] "" ["a", "b", "c"],
        [⟨"a", 10, 10, Stage.placed⟩, ⟨"b", 10, 10, Stage.placed⟩,
          ⟨"c", 10, 10, Stage.placed⟩]⟩).1
    (by decide) (by decide) (by decide) (by decide) |>.1

/-! ### C5: `confirmItemSize` -/

theorem upsertPair_eq_alt (e : SizePair) :
    ∀ pairs : List SizePair, upsertPair pairs e = upsertAlt pairs e := by
  intro pairs
  induction pairs with
  | nil => rfl
  | cons p ps ih =>
      unfold upsertPair upsertAlt
      unfold jsFindIndex
      by_cases hp : (p.key == e.key) = true
      · rw [if_pos hp, if_pos hp]
        norm_num
      · rw [if_neg hp, if_neg hp]
        by_cases hr : jsFindIndex (fun q => q.key == e.key) ps = -1
        · rw [if_pos hr]
          have happ : upsertPair ps e = ps ++ [e] := by
            unfold upsertPair
            rw [if_neg (by simp [hr])]
          rw [if_neg (show ¬((-1 : Int) ≠ -1) by simp), ← ih, happ]
          rfl
        · rw [if_neg hr]
          have hrange := jsFindIndex_range (fun q => q.key == e.key) ps
          have hge : 0 ≤ jsFindIndex (fun q => q.key == e.key) ps := by
            rcases hrange with h | h
            · exact absurd h hr
            · exact h
          have hne : jsFindIndex (fun q => q.key == e.key) ps + 1 ≠ -1 := by omega
          rw [if_pos hne]
          have htn : (jsFindIndex (fun q => q.key == e.key) ps + 1).toNat
              = (jsFindIndex (fun q => q.key == e.key) ps).toNat + 1 := by omega
          rw [htn, List.set_cons_succ]
          have hset : upsertPair ps e
              = ps.set (jsFindIndex (fun q => q.key == e.key) ps).toNat e := by
            unfold upsertPair
            rw [if_pos hr]
          rw [← ih, hset]

theorem sizeLookup_upsertAlt_self (e : SizePair) :
    ∀ pairs : List SizePair, sizeLookup (upsertAlt pairs e) e.key = some e := by
  intro pairs
  induction pairs with
  | nil => simp [upsertAlt, sizeLookup, List.find?]
  | cons p ps ih =>
      unfold upsertAlt
      by_cases hp : (p.key == e.key) = true
      · rw [if_pos hp]
        simp [sizeLookup, List.find?]
      · rw [if_neg hp]
        unfold sizeLookup at ih ⊢
        rw [List.find?_cons_of_neg _ (by simpa using hp)]
        exact ih

theorem sizeLookup_upsertAlt_ne (e : SizePair) (k' : String) (hk : k' ≠ e.key) :
    ∀ pairs : List SizePair,
      sizeLookup (upsertAlt pairs e) k' = sizeLookup pairs k' := by
  intro pairs
  have hek : (e.key == k') = false :=
    beq_eq_false_iff_ne.2 (fun h => hk h.symm)
  induction pairs with
  | nil =>
      unfold upsertAlt sizeLookup
      rw [List.find?_cons_of_neg _ (by simpa using hek)]
  | cons p ps ih =>
      unfold upsertAlt
      by_cases hp : (p.key == e.key) = true
      · rw [if_pos hp]
        have hpk : p.key = e.key := beq_iff_eq.1 hp
        unfold sizeLookup
        by_cases hpq : (p.key == k') = true
        · exact absurd (beq_iff_eq.1 hpq) (hpk ▸ fun h => hk h.symm)
        · rw [List.find?_cons_of_neg _ (by simpa using hek),
            List.find?_cons_of_neg _ (by simpa using hpq)]
      · rw [if_neg hp]
        unfold sizeLookup at ih ⊢
        by_cases hpq : (p.key == k') = true
        · rw [List.find?_cons_of_pos _ (by simpa using hpq),
            List.find?_cons_of_pos _ (by simpa using hpq)]
        · rw [List.find?_cons_of_neg _ (by simpa using hpq),
            List.find?_cons_of_neg _ (by simpa using hpq)]
          exact ih

theorem sizedLookup_upsert_self (pairs : List SizePair) (key : String)
    (w h : Int) (stage : Stage) (hw : w ≠ 0) (hh : h ≠ 0) :
    sizedLookup (upsertPair pairs ⟨key, w, h, stage⟩) key
      = some ⟨key, w, h, stage⟩ := by
  unfold sizedLookup
  rw [upsertPair_eq_alt, sizeLookup_upsertAlt_self ⟨key, w, h, stage⟩ pairs]
  simp [hw, hh]

theorem sizedLookup_upsert_ne (pairs : List SizePair) (key k' : String)
    (w h : Int) (stage : Stage) (hk : k' ≠ key) :
    sizedLookup (upsertPair pairs ⟨key, w, h, stage⟩) k' = sizedLookup pairs k' := by
  unfold sizedLookup
  rw [upsertPair_eq_alt, sizeLookup_upsertAlt_ne ⟨key, w, h, stage⟩ k' hk pairs]

theorem computeLayoutStep_len_flag (cfg : LayoutConfig)
    (pairs1 pairs2 : List SizePair) (lk1 lk2 : String) (k : String)
    (s1 s2 : List ItemPosition × Bool)
    (hlen : s1.1.length = s2.1.length) (hflag : s1.2 = s2.2)
    (hsz : (sizedLookup pairs1 k).isSome = (sizedLookup pairs2 k).isSome) :
    (computeLayoutStep cfg pairs1 lk1 s1 k).1.length
        = (computeLayoutStep cfg pairs2 lk2 s2 k).1.length ∧
      (computeLayoutStep cfg pairs1 lk1 s1 k).2
        = (computeLayoutStep cfg pairs2 lk2 s2 k).2 := by
  unfold computeLayoutStep
  cases h1 : sizedLookup pairs1 k with
  | some e1 =>
      cases h2 : sizedLookup pairs2 k with
      | some e2 => simp [List.length_append, hlen, hflag]
      | none => rw [h1, h2] at hsz; simp at hsz
  | none =>
      cases h2 : sizedLookup pairs2 k with
      | some e2 => rw [h1, h2] at hsz; simp at hsz
      | none =>
          by_cases hf : s1.2
          · have hf2 : s2.2 = true := hflag ▸ hf
            simp [hf, hf2, hlen]
          · have hf2 : s2.2 = false := by
              simp only [Bool.not_eq_true] at hf
              rw [← hflag]
              exact hf
            simp [hf, hf2, List.length_append, hlen]

theorem walk_len_flag (cfg : LayoutConfig) (pairs1 pairs2 : List SizePair)
    (lk1 lk2 : String) (key : String)
    (hpp : ∀ k', k' ≠ key →
      (sizedLookup pairs1 k').isSome = (sizedLookup pairs2 k').isSome) :
    ∀ A : List String, key ∉ A → ∀ s1 s2 : List ItemPosition × Bool,
      s1.1.length = s2.1.length → s1.2 = s2.2 →
      (A.foldl (computeLayoutStep cfg pairs1 lk1) s1).1.length
          = (A.foldl (computeLayoutStep cfg pairs2 lk2) s2).1.length ∧
        (A.foldl (computeLayoutStep cfg pairs1 lk1) s1).2
          = (A.foldl (computeLayoutStep cfg pairs2 lk2) s2).2 := by
  intro A
  induction A with
  | nil => intro _ s1 s2 hlen hflag; exact ⟨hlen, hflag⟩
  | cons k ks ih =>
      intro hk s1 s2 hlen hflag
      have hkne : k ≠ key := fun h => hk (h ▸ List.mem_cons_self k ks)
      have hkmem : key ∉ ks := fun h => hk (List.mem_cons.2 (Or.inr h))
      rw [List.foldl_cons, List.foldl_cons]
      obtain ⟨hl, hf⟩ := computeLayoutStep_len_flag cfg pairs1 pairs2 lk1 lk2 k
        s1 s2 hlen hflag (hpp k hkne)
      exact ih hkmem _ _ hl hf

theorem mem_map_key_of_build (cfg : LayoutConfig) (pairs : List SizePair)
    (lk : String) (A : List String) (key : String) (hA : key ∉ A)
    (x : ItemPosition)
    (hx : x ∈ (A.foldl (computeLayoutStep cfg pairs lk) ([], false)).1) :
    (x.key == key) = false := by
  obtain ⟨t, ht, hsub⟩ := computeLayout_build cfg pairs lk A ([], false)
  rw [ht] at hx
  simp only [List.nil_append] at hx
  have hxk : x.key ∈ t.map (·.key) := List.mem_map_of_mem _ hx
  have hxA : x.key ∈ A := hsub.subset hxk
  exact beq_eq_false_iff_ne.2 (fun h => hA (h ▸ hxA))

/-- The sized branch of one `computeLayout` iteration, with the appended
entry spelled out. -/
theorem computeLayoutStep_sized (cfg : LayoutConfig) (pairs : List SizePair)
    (lk : String) (s : List ItemPosition × Bool) (k : String) (e : SizePair)
    (hsz : sizedLookup pairs k = some e) :
    computeLayoutStep cfg pairs lk s k
      = (s.1 ++ [⟨if lk == k ∧ e.stage == Stage.measured then Stage.moved
            else if lk == k ∧ e.stage == Stage.moved then Stage.placed
            else Stage.placed,
          s.1.length,
          (calcNextItemPosition cfg pairs s.1 s.1.length).1,
          (calcNextItemPosition cfg pairs s.1 s.1.length).2,
          some e.width, some e.height, k⟩], s.2) := by
  unfold computeLayoutStep
  rw [hsz]

/-- C5 counterexample: with keys `[u, k]` where only `k` is cached (at
size 10×10) the position list is `[probe u, k]`, so `k` *is* tracked; yet
`confirmItemSize(0, 10, "k", measured)` — a zero width — returns nothing
(the recomputed list no longer contains `k`, and `positions[1]` is out of
range), while still mutating the size cache.  This refutes the claim that
`confirmItemSize` always returns the position entry whose key equals the
given key whenever the key is tracked. -/
theorem C5_counterexample :
    ("k" ∈ ((computeLayout ⟨0, 100, 10, 300⟩ [⟨"k", 10, 10, Stage.placed⟩] ""
        ["u", "k"]).map (·.key))) ∧
      (confirmItemSize ⟨0, 100, 10, 300⟩ 0 10 "k" Stage.measured
        ⟨["u", "k"],
          computeLayout ⟨0, 100, 10, 300⟩ [⟨"k", 10, 10, Stage.placed⟩] "" ["u", "k"],
          [⟨"k", 10, 10, Stage.placed⟩]⟩).2 = none ∧
      (confirmItemSize ⟨0, 100, 10, 300⟩ 0 10 "k" Stage.measured
        ⟨["u", "k"],
          computeLayout ⟨0, 100, 10, 300⟩ [⟨"k", 10, 10, Stage.placed⟩] "" ["u", "k"],
          [⟨"k", 10, 10, Stage.placed⟩]⟩).1.pairs
        = [⟨"k", 0, 10, Stage.measured⟩] := by
  refine ⟨by decide, by decide, by decide⟩

/-- C5 amended: for a layout state whose position list is the one
computed from its keys and cache (the hook's run-time invariant), a
`confirmItemSize(w, h, key, stage)` call with *nonzero* measured
dimensions and a nonempty key behaves as claimed: if `key` is not tracked
in the position list the call returns nothing and performs no mutation at
all; if `key` is tracked, the call upserts the cache entry, recomputes
the layout, and returns exactly the recomputed position entry whose `key`
field equals the given key (carrying the new width and height). -/
theorem C5_confirmItemSize_amended (cfg : LayoutConfig) (w h : Int)
    (key lk0 : String) (stage : Stage) (keys : List String)
    (pairs : List SizePair) (hw : w ≠ 0) (hh : h ≠ 0) (hkey : key ≠ "")
    (hnd : keys.Nodup) :
    (key ∉ ((computeLayout cfg pairs lk0 keys).map (·.key)) →
      confirmItemSize cfg w h key stage
        ⟨keys, computeLayout cfg pairs lk0 keys, pairs⟩
        = (⟨keys, computeLayout cfg pairs lk0 keys, pairs⟩, none)) ∧
    (key ∈ ((computeLayout cfg pairs lk0 keys).map (·.key)) →
      ∃ p : ItemPosition,
        (confirmItemSize cfg w h key stage
            ⟨keys, computeLayout cfg pairs lk0 keys, pairs⟩).2 = some p ∧
        p.key = key ∧ p.width = some w ∧ p.height = some h ∧
        (confirmItemSize cfg w h key stage
            ⟨keys, computeLayout cfg pairs lk0 keys, pairs⟩).1.pairs
          = upsertPair pairs ⟨key, w, h, stage⟩ ∧
        (confirmItemSize cfg w h key stage
            ⟨keys, computeLayout cfg pairs lk0 keys, pairs⟩).1.positions
          = computeLayout cfg (upsertPair pairs ⟨key, w, h, stage⟩) key keys) := by
  constructor
  · intro hmem
    have hall : ∀ x ∈ computeLayout cfg pairs lk0 keys, (x.key == key) = false := by
      intro x hx
      refine beq_eq_false_iff_ne.2 (fun hxy => ?_)
      exact hmem (hxy ▸ List.mem_map_of_mem _ hx)
    have hidx : jsFindIndex (fun p => p.key == key)
        (computeLayout cfg pairs lk0 keys) = -1 :=
      jsFindIndex_of_forall_false _ _ hall
    unfold confirmItemSize
    rw [hidx]
    norm_num
  · intro hmem
    -- `key` occurs in the emitted keys, hence in the ordered key list.
    obtain ⟨tAll, htAll, hsubAll⟩ :=
      computeLayout_build cfg pairs lk0 keys ([], false)
    have hsubKeys : ((computeLayout cfg pairs lk0 keys).map (·.key)).Sublist keys := by
      unfold computeLayout
      rw [htAll]
      simpa using hsubAll
    have hkeys : key ∈ keys := hsubKeys.subset hmem
    obtain ⟨A, B, hsplit⟩ := List.append_of_mem hkeys
    subst hsplit
    have hndm := (List.nodup_cons.1 (List.nodup_middle.1 hnd)).1
    have hkA : key ∉ A := fun hmA => hndm (List.mem_append.2 (Or.inl hmA))
    have hkB : key ∉ B := fun hmB => hndm (List.mem_append.2 (Or.inr hmB))
    have hpp : ∀ k', k' ≠ key →
        (sizedLookup (upsertPair pairs ⟨key, w, h, stage⟩) k').isSome
          = (sizedLookup pairs k').isSome := by
      intro k' hk'
      rw [sizedLookup_upsert_ne pairs key k' w h stage hk']
    obtain ⟨hlenA, hflagA⟩ := walk_len_flag cfg
      (upsertPair pairs ⟨key, w, h, stage⟩) pairs key lk0 key hpp A hkA
      ([], false) ([], false) rfl rfl
    -- The old walk must have emitted an entry for `key` right after A.
    rcases computeLayoutStep_cases cfg pairs lk0
        (A.foldl (computeLayoutStep cfg pairs lk0) ([], false)) key with
      hc | ⟨oldE, hcEq, hcKey, hcIdx⟩
    · exfalso
      obtain ⟨tB, htB, hsubB⟩ := computeLayout_build cfg pairs lk0 B
        (computeLayoutStep cfg pairs lk0
          (A.foldl (computeLayoutStep cfg pairs lk0) ([], false)) key)
      have holds : computeLayout cfg pairs lk0 (A ++ key :: B)
          = (A.foldl (computeLayoutStep cfg pairs lk0) ([], false)).1 ++ tB := by
        unfold computeLayout
        rw [List.foldl_append, List.foldl_cons, htB, hc]
      rw [holds, List.map_append] at hmem
      rcases List.mem_append.1 hmem with hm | hm
      · obtain ⟨x, hx, hxk⟩ := List.mem_map.1 hm
        have hfalse := mem_map_key_of_build cfg pairs lk0 A key hkA x hx
        rw [hxk] at hfalse
        simp at hfalse
      · exact hkB (hsubB.subset hm)
    · -- `key`'s entry sits at index `(A-walk).1.length` in the old list …
      have hiold : jsFindIndex (fun p => p.key == key)
          (computeLayout cfg pairs lk0 (A ++ key :: B))
          = ((A.foldl (computeLayoutStep cfg pairs lk0) ([], false)).1.length : Int) := by
        obtain ⟨tB, htB, hsubB⟩ := computeLayout_build cfg pairs lk0 B
          (computeLayoutStep cfg pairs lk0
            (A.foldl (computeLayoutStep cfg pairs lk0) ([], false)) key)
        have holds : computeLayout cfg pairs lk0 (A ++ key :: B)
            = (A.foldl (computeLayoutStep cfg pairs lk0) ([], false)).1
              ++ oldE :: tB := by
          unfold computeLayout
          rw [List.foldl_append, List.foldl_cons, htB, hcEq, List.append_assoc,
            List.singleton_append]
        rw [holds]
        exact jsFindIndex_append (fun q => q.key == key) oldE tB
          (beq_iff_eq.2 hcKey) _
          (fun x hx => mem_map_key_of_build cfg pairs lk0 A key hkA x hx)
      -- … and the new walk emits the confirmed entry at the same index.
      have hsz' : sizedLookup (upsertPair pairs ⟨key, w, h, stage⟩) key
          = some ⟨key, w, h, stage⟩ :=
        sizedLookup_upsert_self pairs key w h stage hw hh
      have hstepNew := computeLayoutStep_sized cfg
        (upsertPair pairs ⟨key, w, h, stage⟩) key
        (A.foldl (computeLayoutStep cfg (upsertPair pairs ⟨key, w, h, stage⟩) key)
          ([], false)) key ⟨key, w, h, stage⟩ hsz'
      obtain ⟨tB', htB', hsubB'⟩ := computeLayout_build cfg
        (upsertPair pairs ⟨key, w, h, stage⟩) key B
        (computeLayoutStep cfg (upsertPair pairs ⟨key, w, h, stage⟩) key
          (A.foldl (computeLayoutStep cfg (upsertPair pairs ⟨key, w, h, stage⟩) key)
            ([], false)) key)
      have hneg : ¬(((A.foldl (computeLayoutStep cfg pairs lk0) ([], false)).1.length : Int) < 0) := by
        omega
      have hproj : (confirmItemSize cfg w h key stage
          ⟨A ++ key :: B, computeLayout cfg pairs lk0 (A ++ key :: B), pairs⟩).2
          = some ⟨if key == key ∧ stage == Stage.measured then Stage.moved
              else if key == key ∧ stage == Stage.moved then Stage.placed
              else Stage.placed,
            (A.foldl (computeLayoutStep cfg (upsertPair pairs ⟨key, w, h, stage⟩) key)
              ([], false)).1.length,
            (calcNextItemPosition cfg (upsertPair pairs ⟨key, w, h, stage⟩)
              (A.foldl (computeLayoutStep cfg (upsertPair pairs ⟨key, w, h, stage⟩) key)
                ([], false)).1
              (A.foldl (computeLayoutStep cfg (upsertPair pairs ⟨key, w, h, stage⟩) key)
                ([], false)).1.length).1,
            (calcNextItemPosition cfg (upsertPair pairs ⟨key, w, h, stage⟩)
              (A.foldl (computeLayoutStep cfg (upsertPair pairs ⟨key, w, h, stage⟩) key)
                ([], false)).1
              (A.foldl (computeLayoutStep cfg (upsertPair pairs ⟨key, w, h, stage⟩) key)
                ([], false)).1.length).2,
            some w, some h, key⟩ := by
        simp only [confirmItemSize]
        rw [hiold, if_neg hneg, if_pos hkey]
        unfold computeLayoutS
        unfold computeLayout
        rw [List.foldl_append, List.foldl_cons, htB', hstepNew,
          List.append_assoc, List.singleton_append,
          show (((A.foldl (computeLayoutStep cfg pairs lk0) ([], false)).1.length : Int)).toNat
            = (A.foldl (computeLayoutStep cfg (upsertPair pairs ⟨key, w, h, stage⟩) key)
                ([], false)).1.length from by omega]
        exact get?_append_middle _ tB' _
      refine ⟨_, hproj, rfl, rfl, rfl, ?_, ?_⟩
      · simp only [confirmItemSize]
        rw [hiold, if_neg hneg, if_pos hkey]
      · simp only [confirmItemSize]
        rw [hiold, if_neg hneg, if_pos hkey]
        rfl

/-- C5 amended, witness: confirming a 12×8 size for the tracked key `k`
(keys `[u, k]`, only `k` cached) returns the recomputed entry for `k`
carrying the new dimensions, with the cache upserted. -/
theorem C5_confirmItemSize_amended_witness :
    ((12 : Int) ≠ 0 ∧ (8 : Int) ≠ 0 ∧ "k" ≠ "" ∧
        (["u", "k"] : List String).Nodup ∧
        "k" ∈ ((computeLayout ⟨0, 100, 10, 300⟩ [⟨"k", 10, 10, Stage.placed⟩] ""
          ["u", "k"]).map (·.key))) ∧
      (∃ p : ItemPosition,
        (confirmItemSize ⟨0, 100, 10, 300⟩ 12 8 "k" Stage.measured
            ⟨["u", "k"],
              computeLayout ⟨0, 100, 10, 300⟩ [⟨"k", 10, 10, Stage.placed⟩] ""
                ["u", "k"],
              [⟨"k", 10, 10, Stage.placed⟩]⟩).2 = some p ∧
        p.key = "k" ∧ p.width = some 12 ∧ p.height = some 8 ∧
        (confirmItemSize ⟨0, 100, 10, 300⟩ 12 8 "k" Stage.measured
            ⟨["u", "k"],
              computeLayout ⟨0, 100, 10, 300⟩ [⟨"k", 10, 10, Stage.placed⟩] ""
                ["u", "k"],
              [⟨"k", 10, 10, Stage.placed⟩]⟩).1.pairs
          = upsertPair [⟨"k", 10, 10, Stage.placed⟩] ⟨"k", 12, 8, Stage.measured⟩ ∧
        (confirmItemSize ⟨0, 100, 10, 300⟩ 12 8 "k" Stage.measured
            ⟨["u", "k"],
              computeLayout ⟨0, 100, 10, 300⟩ [⟨"k", 10, 10, Stage.placed⟩] ""
                ["u", "k"],
              [⟨"k", 10, 10, Stage.placed⟩]⟩).1.positions
          = computeLayout ⟨0, 100, 10, 300⟩
              (upsertPair [⟨"k", 10, 10, Stage.placed⟩] ⟨"k", 12, 8, Stage.measured⟩)
              "k" ["u", "k"]) :=
  ⟨⟨by decide, by decide, by decide, by decide, by decide⟩,
    (C5_confirmItemSize_amended ⟨0, 100, 10, 300⟩ 12 8 "k" "" Stage.measured
        ["u", "k"] [⟨"k", 10, 10, Stage.placed⟩] (by decide) (by decide)
        (by decide) (by decide)).2 (by decide)⟩

/-! ### C1: `updateVisibleRange` -/

/-- C1 counterexample: on a sparse, unsorted position table — entries
`[top 200, top 0, top 105, missing]`, viewport `[100, 110]`, buffer 0 —
`updateVisibleRange` returns `start = 2`, `end = 0`: the claimed bound
`0 ≤ start ≤ end ≤ itemCount` fails (`2 > 0`), and item 2 (span
105–115, which intersects the viewport) lies outside the empty range
`[2, 0)`.  The first binary search lands on index 2 while the second hits
the hole at index 3 and falls back to a linear scan that stops at the
out-of-order entry 0 (`top 200 > 110`), producing
`firstInvisibleIdx = 0`. -/
theorem C1_counterexample :
    updateVisibleRange
        [some ⟨200, some 10⟩, some ⟨0, some 10⟩, some ⟨105, some 10⟩, none]
        4 0 100 10 = some (2, 0) ∧ ¬((2 : Int) ≤ 0) := by
  constructor
  · simp [updateVisibleRange, firstVisibleSearch, firstInvisibleSearch,
      findFirstVisible, findLastVisible, posAt]
  · decide

/-- Correctness of the first binary search under a complete position
table with nondecreasing bottom edges: the loop returns the boundary
index `F` with every earlier item's bottom at or above `scrollTop` and
every item from `F` on strictly below it. -/
theorem firstVisibleSearch_spec (positions : List (Option VPos))
    (itemCount : Nat) (scrollTop scrollBottom : Int) (tops heights : Nat → Int)
    (hpos : ∀ i, i < itemCount → posAt positions i = some ⟨tops i, some (heights i)⟩)
    (hbot : ∀ i j, i ≤ j → j < itemCount →
      tops i + heights i ≤ tops j + heights j) :
    ∀ (n : Nat) (lo : Nat) (hi : Int),
      (hi + 1 - (lo : Int)).toNat ≤ n →
      (lo : Int) ≤ itemCount → hi ≤ (itemCount : Int) - 1 →
      (∀ j : Nat, j < lo → j < itemCount → tops j + heights j ≤ scrollTop) →
      (∀ j : Nat, hi < (j : Int) → j < itemCount →
        scrollTop < tops j + heights j) →
      0 ≤ firstVisibleSearch positions itemCount scrollTop scrollBottom lo hi ∧
        firstVisibleSearch positions itemCount scrollTop scrollBottom lo hi
          ≤ itemCount ∧
        (∀ j : Nat,
          (j : Int) < firstVisibleSearch positions itemCount scrollTop scrollBottom lo hi →
          j < itemCount → tops j + heights j ≤ scrollTop) ∧
        (∀ j : Nat,
          firstVisibleSearch positions itemCount scrollTop scrollBottom lo hi ≤ (j : Int) →
          j < itemCount → scrollTop < tops j + heights j) := by
  intro n
  induction n with
  | zero =>
      intro lo hi hfuel hlo hhi hpre3 hpre4
      have hlh : ¬((lo : Int) ≤ hi) := by omega
      unfold firstVisibleSearch
      rw [dif_neg hlh]
      exact ⟨by omega, hlo, fun j hj hjn => hpre3 j (by omega) hjn,
        fun j hj hjn => hpre4 j (by omega) hjn⟩
  | succ n ih =>
      intro lo hi hfuel hlo hhi hpre3 hpre4
      by_cases hlh : (lo : Int) ≤ hi
      · unfold firstVisibleSearch
        rw [dif_pos hlh]
        have hmidlt : (lo + hi.toNat) / 2 < itemCount := by omega
        simp only [hpos ((lo + hi.toNat) / 2) hmidlt]
        by_cases hc1 : scrollTop < tops ((lo + hi.toNat) / 2)
            + heights ((lo + hi.toNat) / 2) ∧
            tops ((lo + hi.toNat) / 2) < scrollBottom
        · rw [if_pos hc1]
          refine ih lo (((lo + hi.toNat) / 2 : Nat) - 1) (by omega) hlo (by omega)
            hpre3 ?_
          intro j hj hjn
          exact lt_of_lt_of_le hc1.1
            (hbot ((lo + hi.toNat) / 2) j (by omega) hjn)
        · rw [if_neg hc1]
          by_cases hc2 : tops ((lo + hi.toNat) / 2)
              + heights ((lo + hi.toNat) / 2) ≤ scrollTop
          · rw [if_pos hc2]
            refine ih ((lo + hi.toNat) / 2 + 1) hi (by omega) (by omega) hhi ?_
              hpre4
            intro j hj hjn
            exact le_trans (hbot j ((lo + hi.toNat) / 2) (by omega) hmidlt) hc2
          · rw [if_neg hc2]
            refine ih lo (((lo + hi.toNat) / 2 : Nat) - 1) (by omega) hlo (by omega)
              hpre3 ?_
            intro j hj hjn
            exact lt_of_lt_of_le (by omega)
              (hbot ((lo + hi.toNat) / 2) j (by omega) hjn)
      · unfold firstVisibleSearch
        rw [dif_neg hlh]
        exact ⟨by omega, hlo, fun j hj hjn => hpre3 j (by omega) hjn,
          fun j hj hjn => hpre4 j (by omega) hjn⟩

/-- Correctness of the second binary search under a complete position
table: the returned candidate is `itemCount` or an index whose top lies
strictly below the viewport bottom. -/
theorem firstInvisibleSearch_spec (positions : List (Option VPos))
    (itemCount : Nat) (scrollBottom : Int) (tops heights : Nat → Int)
    (hpos : ∀ i, i < itemCount → posAt positions i = some ⟨tops i, some (heights i)⟩) :
    ∀ (n : Nat) (lo : Nat) (hi : Int) (found : Int),
      (hi + 1 - (lo : Int)).toNat ≤ n →
      hi ≤ (itemCount : Int) - 1 →
      0 ≤ found → found ≤ itemCount →
      (found < itemCount → scrollBottom < tops found.toNat) →
      0 ≤ firstInvisibleSearch positions itemCount scrollBottom lo hi found ∧
        firstInvisibleSearch positions itemCount scrollBottom lo hi found
          ≤ itemCount ∧
        (firstInvisibleSearch positions itemCount scrollBottom lo hi found
            < itemCount →
          scrollBottom < tops (firstInvisibleSearch positions itemCount
            scrollBottom lo hi found).toNat) := by
  intro n
  induction n with
  | zero =>
      intro lo hi found hfuel hhi hf0 hfn hfbig
      have hlh : ¬((lo : Int) ≤ hi) := by omega
      unfold firstInvisibleSearch
      rw [dif_neg hlh]
      exact ⟨hf0, hfn, hfbig⟩
  | succ n ih =>
      intro lo hi found hfuel hhi hf0 hfn hfbig
      by_cases hlh : (lo : Int) ≤ hi
      · unfold firstInvisibleSearch
        rw [dif_pos hlh]
        have hmidlt : (lo + hi.toNat) / 2 < itemCount := by omega
        simp only [hpos ((lo + hi.toNat) / 2) hmidlt]
        by_cases hc : scrollBottom < tops ((lo + hi.toNat) / 2)
        · rw [if_pos hc]
          refine ih lo (((lo + hi.toNat) / 2 : Nat) - 1) ((lo + hi.toNat) / 2)
            (by omega) (by omega) (by omega) (by omega) ?_
          intro _
          have hcast : (((lo : Int) + (hi.toNat : Int)) / 2).toNat
              = (lo + hi.toNat) / 2 := by omega
          rw [hcast]
          exact hc
        · rw [if_neg hc]
          exact ih ((lo + hi.toNat) / 2 + 1) hi found (by omega) hhi hf0 hfn hfbig
      · unfold firstInvisibleSearch
        rw [dif_neg hlh]
        exact ⟨hf0, hfn, hfbig⟩

theorem visibleRange_arith (n b len F I st : Int)
    (hn : 1 ≤ n) (hb : 0 ≤ b) (hlen : n ≤ len) (_hF0 : 0 ≤ F) (hFI : F ≤ I)
    (_hIn : I ≤ n) (hI0 : 0 ≤ I) :
    0 ≤ (if st ≤ 0 then (0 : Int) else max 0 (max 0 (min F (n - 1) - b))) ∧
      (if st ≤ 0 then (0 : Int) else max 0 (max 0 (min F (n - 1) - b)))
        ≤ min (min (n - 1) (I + b - 1)) len + 1 ∧
      min (min (n - 1) (I + b - 1)) len + 1 ≤ n := by
  have m1 : min F (n - 1) ≤ F := min_le_left _ _
  have m2 : min F (n - 1) ≤ n - 1 := min_le_right _ _
  have m3 : min (min (n - 1) (I + b - 1)) len ≤ min (n - 1) (I + b - 1) :=
    min_le_left _ _
  have m4 : min (n - 1) (I + b - 1) ≤ n - 1 := min_le_left _ _
  have m5 : -1 ≤ min (min (n - 1) (I + b - 1)) len :=
    le_min (le_min (by omega) (by omega)) (by omega)
  refine ⟨?_, ?_, ?_⟩
  · split
    · omega
    · exact le_max_left _ _
  · split
    · omega
    · refine max_le (by omega) (max_le (by omega) ?_)
      have m6 : min F (n - 1) - b - 1 ≤ min (min (n - 1) (I + b - 1)) len :=
        le_min (le_min (by omega) (by omega)) (by omega)
      omega
  · omega

theorem visibleRange_arith_mem (n b len F I st i : Int)
    (hb : 0 ≤ b) (hlen : n ≤ len) (hiF : F ≤ i) (hiI : i < I) (hi : i < n)
    (hi0 : 0 ≤ i) :
    (if st ≤ 0 then (0 : Int) else max 0 (max 0 (min F (n - 1) - b))) ≤ i ∧
      i < min (min (n - 1) (I + b - 1)) len + 1 := by
  have m1 : min F (n - 1) ≤ F := min_le_left _ _
  have m7 : i ≤ min (min (n - 1) (I + b - 1)) len :=
    le_min (le_min (by omega) (by omega)) (by omega)
  constructor
  · split
    · omega
    · exact max_le (by omega) (max_le (by omega) (by omega))
  · omega

/-- C1 amended: provided the position table is complete up to `itemCount`
(every index holds an entry with a measured, nonnegative height), the
tops and the bottoms are nondecreasing in the index, and the viewport
height is nonnegative, `updateVisibleRange` returns a range with
`0 ≤ start ≤ end ≤ itemCount`, and every item whose vertical span
intersects the visible viewport has its index within `[start, end)`. -/
theorem C1_visibleRange_amended (positions : List (Option VPos))
    (itemCount buffer : Nat) (scrollTop viewportHeight : Int)
    (tops heights : Nat → Int)
    (hpos : ∀ i, i < itemCount → posAt positions i = some ⟨tops i, some (heights i)⟩)
    (hlen : itemCount ≤ positions.length) (hn : 0 < itemCount)
    (hview : 0 ≤ viewportHeight)
    (hh : ∀ i, i < itemCount → 0 ≤ heights i)
    (htop : ∀ i j, i ≤ j → j < itemCount → tops i ≤ tops j)
    (hbot : ∀ i j, i ≤ j → j < itemCount →
      tops i + heights i ≤ tops j + heights j) :
    ∃ s e : Int,
      updateVisibleRange positions itemCount buffer scrollTop viewportHeight
          = some (s, e) ∧
        0 ≤ s ∧ s ≤ e ∧ e ≤ (itemCount : Int) ∧
        (∀ i : Nat, i < itemCount →
          scrollTop < tops i + heights i →
          tops i < scrollTop + viewportHeight →
          s ≤ (i : Int) ∧ (i : Int) < e) := by
  have hne : positions.isEmpty = false := by
    have h0 : positions ≠ [] := by
      intro h0
      rw [h0] at hlen
      simp at hlen
      omega
    simpa [List.isEmpty_iff] using h0
  have hguard : ¬(positions.isEmpty = true ∨ itemCount = 0) := by
    simp [hne]
    omega
  obtain ⟨hF0, hFle, hFbelow, _⟩ := firstVisibleSearch_spec positions itemCount
    scrollTop (scrollTop + viewportHeight) tops heights hpos hbot
    (((itemCount : Int) - 1 + 1 - (0 : Int)).toNat) 0 ((itemCount : Int) - 1)
    (le_refl _) (by omega) (by omega)
    (fun j hj _ => absurd hj (by omega))
    (fun j hj hjn => by omega)
  obtain ⟨hI0, hIle, hIbig⟩ := firstInvisibleSearch_spec positions itemCount
    (scrollTop + viewportHeight) tops heights hpos
    (((itemCount : Int) - 1 + 1 - (0 : Int)).toNat) 0 ((itemCount : Int) - 1)
    (itemCount : Int) (le_refl _) (by omega) (by omega) (le_refl _)
    (fun hlt => absurd hlt (by omega))
  have hFI : firstVisibleSearch positions itemCount scrollTop
      (scrollTop + viewportHeight) 0 ((itemCount : Int) - 1)
      ≤ firstInvisibleSearch positions itemCount (scrollTop + viewportHeight) 0
        ((itemCount : Int) - 1) (itemCount : Int) := by
    by_cases hc : firstInvisibleSearch positions itemCount
        (scrollTop + viewportHeight) 0 ((itemCount : Int) - 1) (itemCount : Int)
        < (itemCount : Int)
    · by_contra hgt
      push_neg at hgt
      have h1 := hFbelow (firstInvisibleSearch positions itemCount
          (scrollTop + viewportHeight) 0 ((itemCount : Int) - 1)
          (itemCount : Int)).toNat (by omega) (by omega)
      have h2 := hIbig hc
      have h3 := hh (firstInvisibleSearch positions itemCount
          (scrollTop + viewportHeight) 0 ((itemCount : Int) - 1)
          (itemCount : Int)).toNat (by omega)
      omega
    · omega
  have harith := visibleRange_arith (itemCount : Int) (buffer : Int)
    (positions.length : Int)
    (firstVisibleSearch positions itemCount scrollTop
      (scrollTop + viewportHeight) 0 ((itemCount : Int) - 1))
    (firstInvisibleSearch positions itemCount (scrollTop + viewportHeight) 0
      ((itemCount : Int) - 1) (itemCount : Int))
    scrollTop (by omega) (by omega) (by exact_mod_cast hlen) hF0 hFI hIle hI0
  simp only [updateVisibleRange]
  rw [if_neg hguard]
  refine ⟨_, _, rfl, harith.1, harith.2.1, harith.2.2, ?_⟩
  intro i hi hib hit
  have hiF : firstVisibleSearch positions itemCount scrollTop
      (scrollTop + viewportHeight) 0 ((itemCount : Int) - 1) ≤ (i : Int) := by
    by_contra hcon
    push_neg at hcon
    have := hFbelow i hcon hi
    omega
  have hiI : (i : Int) < firstInvisibleSearch positions itemCount
      (scrollTop + viewportHeight) 0 ((itemCount : Int) - 1) (itemCount : Int) := by
    by_contra hcon
    push_neg at hcon
    have hcFind : firstInvisibleSearch positions itemCount
        (scrollTop + viewportHeight) 0 ((itemCount : Int) - 1) (itemCount : Int)
        < (itemCount : Int) := by omega
    have h2 := hIbig hcFind
    have h3 := htop (firstInvisibleSearch positions itemCount
        (scrollTop + viewportHeight) 0 ((itemCount : Int) - 1)
        (itemCount : Int)).toNat i (by omega) hi
    omega
  exact visibleRange_arith_mem (itemCount : Int) (buffer : Int)
    (positions.length : Int) _ _ scrollTop (i : Int) (by omega)
    (by exact_mod_cast hlen) hiF hiI (by omega) (by omega)

/-- C1 amended, witness: a complete, sorted three-item table (tops 0,
10, 20, all heights 10), viewport `[5, 15]`, buffer 1, satisfies the
hypotheses, and the computed range obeys the bounds and containment. -/
theorem C1_visibleRange_amended_witness :
    ((∀ i, i < 3 →
        posAt [some ⟨0, some 10⟩, some ⟨10, some 10⟩, some ⟨20, some 10⟩] i
          = some ⟨10 * (i : Int), some 10⟩) ∧
      3 ≤ 3 ∧ 0 < 3 ∧ (0 : Int) ≤ 10 ∧
      (∀ i : Nat, i < 3 → (0 : Int) ≤ 10) ∧
      (∀ i j : Nat, i ≤ j → j < 3 → 10 * (i : Int) ≤ 10 * (j : Int)) ∧
      (∀ i j : Nat, i ≤ j → j < 3 →
        10 * (i : Int) + 10 ≤ 10 * (j : Int) + 10)) ∧
    (∃ s e : Int,
      updateVisibleRange
          [some ⟨0, some 10⟩, some ⟨10, some 10⟩, some ⟨20, some 10⟩] 3 1 5 10
          = some (s, e) ∧
        0 ≤ s ∧ s ≤ e ∧ e ≤ (3 : Int) ∧
        (∀ i : Nat, i < 3 →
          (5 : Int) < 10 * (i : Int) + 10 →
          10 * (i : Int) < 5 + 10 →
          s ≤ (i : Int) ∧ (i : Int) < e)) :=
  ⟨⟨by decide, by decide, by decide, by decide,
      fun i _ => by decide,
      fun i j hij _ => by omega,
      fun i j hij _ => by omega⟩,
    C1_visibleRange_amended
      [some ⟨0, some 10⟩, some ⟨10, some 10⟩, some ⟨20, some 10⟩] 3 1 5 10
      (fun i => 10 * (i : Int)) (fun _ => 10)
      (by decide) (by decide) (by decide) (by decide)
      (fun i _ => by show (0 : Int) ≤ 10; decide)
      (fun i j hij _ => by show 10 * (i : Int) ≤ 10 * (j : Int); omega)
      (fun i j hij _ => by
        show 10 * (i : Int) + 10 ≤ 10 * (j : Int) + 10
        omega)⟩

end Sentereige
